import Mathlib

/-!
Verification of the route-geometry smoothing pipeline of the SDIC_Map
repository (`src/my-app/src/utils/smoothRoute.ts`, together with the
consumer hook `src/my-app/src/hooks/useSmoothRoute.ts`).

The TypeScript source is shallowly embedded over exact rationals:

* a GeoJSON `Position` becomes a pair of rationals `(lon, lat)`;
* IEEE doubles become `ℚ`; the transcendental / irrational library
  primitives that the source calls (`Math.cos` via `metersPerDegLon`,
  `Math.hypot`, and the `Math.acos`-based deflection computation) are
  abstracted as explicit function parameters (`mpdLon`, `hyp`, `deflQ`),
  so every theorem quantifies over what the floating-point library could
  return; concrete closed evaluations instantiate them with rational
  functions that agree with the real primitives at every point at which
  the evaluation actually calls them (all concrete inputs live on the
  equator and on axis-aligned segments, where `cos` and `hypot` are
  exact);
* code that can throw (`@turf/helpers` `lineString`, which throws on
  fewer than two positions) returns `Except String`;
* the external turf stages that are not part of this repository are
  modelled from the spec: `cleanCoords` (PathCleaner), `simplify`
  (Simplifier, abstracted as the parameter `simplifyF`) and
  `bezierSpline` (SplineFitter, abstracted as the parameter `splineF`).
-/

namespace SR

/-- A GeoJSON `Position` restricted to `(longitude, latitude)`, as the
pipeline uses it (no altitude). -/
abbrev Pos : Type := ℚ × ℚ

/-- An opaque key→scalar property map (spec §3 "Feature"). -/
abbrev PropMap : Type := List (String × Int)

/-- Embedding of the TypeScript `Feature<LineString>` values that flow
through the pipeline stages: the coordinate list plus the (nullable)
property map. -/
structure LineF where
  coordinates : List Pos
  properties : Option PropMap
deriving DecidableEq

/-- The geometry types `smoothGeoJSON` dispatches on.  `point` stands for
every geometry type that is neither `LineString` nor `MultiLineString`
(the code treats them all alike in its `else` branch). -/
inductive Geometry where
  | lineString (coordinates : List Pos)
  | multiLineString (coordinates : List (List Pos))
  | point (coordinates : Pos)
deriving DecidableEq

/-- A GeoJSON feature; `geometry` is an `Option` because input features
may carry a `null`/`undefined` geometry (claim C10). -/
structure Feature where
  geometry : Option Geometry
  properties : Option PropMap
deriving DecidableEq

/-- A GeoJSON `FeatureCollection`. -/
structure FeatureCollection where
  features : List Feature
deriving DecidableEq

/-- The two input shapes `smoothGeoJSON` accepts. -/
inductive GeoJSONIn where
  | feature (f : Feature)
  | featureCollection (fc : FeatureCollection)

/-- Source line 15: `const clamp = (x, a, b) => Math.max(a, Math.min(b, x))`. -/
def clamp (x a b : ℚ) : ℚ := max a (min b x)

/-- Source line 18: `lerp(a, b, t) = [a0 + (b0-a0)*t, a1 + (b1-a1)*t]`. -/
def lerp (a b : Pos) (t : ℚ) : Pos :=
  (a.1 + (b.1 - a.1) * t, a.2 + (b.2 - a.2) * t)

/-- JavaScript `Math.round`: round half towards positive infinity. -/
def jsRound (q : ℚ) : ℤ := Rat.floor (q + 1 / 2)

/-- Newton iteration for the integer square root, with explicit fuel so
that it is structurally recursive (and hence reduces inside `decide` and
`rfl`). -/
def sqrtIter (n : ℕ) : ℕ → ℕ → ℕ
  | 0, x => x
  | fuel + 1, x =>
      let y := (x + n / x) / 2
      if y < x then sqrtIter n fuel y else x

/-- Integer square root (exact on perfect squares); `n` itself is more
than enough fuel since the Newton iterate strictly decreases. -/
def natSqrtQ (n : ℕ) : ℕ := if n ≤ 1 then n else sqrtIter n n (n / 2)

/-- Rational square root used by the concrete `Math.hypot`
instantiation `hypotQ`: exact whenever numerator and denominator are
perfect squares (in particular on every axis-aligned distance appearing
in the closed evaluations below), and always nonnegative, like the IEEE
function. -/
def ratSqrt (q : ℚ) : ℚ := (natSqrtQ q.num.toNat : ℚ) / (natSqrtQ q.den : ℚ)

/-- Concrete instantiation of `Math.hypot`: exact on axis-aligned
vectors (one component zero), which covers every call site in the closed
evaluations below. -/
def hypotQ (x y : ℚ) : ℚ := ratSqrt (x * x + y * y)

/-- Source line 88: `metersPerDegLat() = 110574`. -/
def metersPerDegLat : ℚ := 110574

section Pipeline

/- Parameter `mpdLon` abstracts source line 85 `metersPerDegLon(latDeg) =
111320 * Math.cos(rad(latDeg || 0))` (the same expression also appears
inline in `metersToDegreesAtLat`): the floating-point cosine makes the
value irrational, so the whole development is parameterised over it.
Parameter `hyp` abstracts `Math.hypot`.  Parameter `deflQ` abstracts
source lines 43–44 of `filletSharp`:
`dot ↦ (Math.PI - Math.acos dot) * 180 / Math.PI`, the deflection in
degrees as the code computes it from the clamped dot product. -/
variable (mpdLon : ℚ → ℚ) (hyp : ℚ → ℚ → ℚ) (deflQ : ℚ → ℚ)

/-- Source lines 21–24: `metersToDegreesAtLat`. -/
def metersToDegreesAtLat (meters latDeg : ℚ) : ℚ :=
  let metersPerDeg := mpdLon latDeg
  if metersPerDeg ≤ 0 then 0 else meters / metersPerDeg

/-- Average latitude as computed at source lines 104–106:
`avgLatOverride ?? c.reduce((s,p) => s + (p[1] || 0), 0) / Math.max(1, c.length)`. -/
def avgLatOf (c : List Pos) (avgLatOverride : Option ℚ) : ℚ :=
  avgLatOverride.getD ((c.foldl (fun s p => s + p.2) 0) / ((max 1 c.length : ℕ) : ℚ))

/-- The loop of source lines 121–125 building cumulative distances: given
the running value `prev` at the head of the list, emits `cum[1..]`. -/
def cumAux (prev : ℚ) : List Pos → List ℚ
  | a :: b :: rest =>
      let nxt := prev + hyp (b.1 - a.1) (b.2 - a.2)
      nxt :: cumAux nxt (b :: rest)
  | _ => []

/-- The cumulative-distance array `cum` (source lines 119–125):
`cum[0] = 0`, `cum[i] = cum[i-1] + hypot(dx, dy)`. -/
def cumList (pm : List Pos) : List ℚ := 0 :: cumAux hyp 0 pm

/-- The planar total arc length `total = cum[n-1]` (source line 126) of a
coordinate list, including the projection of lines 104–116. -/
def planarTotalAt (c : List Pos) (avgLatOverride : Option ℚ) : ℚ :=
  let avgLat := avgLatOf c avgLatOverride
  let mx := mpdLon avgLat
  let my := metersPerDegLat
  let x := c.map fun p => p.1 * mx
  let y := c.map fun p => p.2 * my
  (cumList hyp (x.zip y)).getLastD 0

/-- Source line 139: `while (seg < n - 2 && cum[seg + 1] < d) seg++`,
with explicit fuel so that the definition is structurally recursive; the
guard `seg < n - 2` bounds the number of iterations by `n`, so fuel `n`
(supplied by `advanceSeg`) never runs out before the loop condition
fails. -/
def advanceSegGo (cum : List ℚ) (n : ℕ) (d : ℚ) : ℕ → ℕ → ℕ
  | 0, seg => seg
  | fuel + 1, seg =>
      if seg < n - 2 ∧ cum.getD (seg + 1) 0 < d then
        advanceSegGo cum n d fuel (seg + 1)
      else seg

/-- The two-pointer advance of source line 139. -/
def advanceSeg (cum : List ℚ) (n : ℕ) (d : ℚ) (seg : ℕ) : ℕ :=
  advanceSegGo cum n d n seg

/-- The body of one iteration of the sampling loop (source lines
136–151): the target distance, the advanced two-pointer, the snapped
interpolation parameter and the interpolated point mapped back to
lon/lat; returns the emitted point and the updated `seg`. -/
def samplePoint (x y cum : List ℚ) (mx my total : ℚ) (n steps : ℕ)
    (i seg : ℕ) : Pos × ℕ :=
  let d := total * (i : ℚ) / (steps : ℚ)
  let seg1 := advanceSeg cum n d seg
  let segLen := cum.getD (seg1 + 1) 0 - cum.getD seg1 0
  let t0 := if segLen > 0 then (d - cum.getD seg1 0) / segLen else 0
  let t := if t0 < 1 / 1000000000 then 0
           else if t0 > 1 - 1 / 1000000000 then 1 else t0
  let xm := x.getD seg1 0 + (x.getD (seg1 + 1) 0 - x.getD seg1 0) * t
  let ym := y.getD seg1 0 + (y.getD (seg1 + 1) 0 - y.getD seg1 0) * t
  ((xm / mx, ym / my), seg1)

/-- One pass of the sampling loop of source lines 134–152: walks the
remaining targets (`rem` counts them; the loop `i = 0..steps` makes
exactly `steps + 1` iterations) carrying the two-pointer `seg`, emitting
the interpolated points mapped back to lon/lat. -/
def sampleLoopGo (x y cum : List ℚ) (mx my total : ℚ) (n steps : ℕ) :
    ℕ → ℕ → ℕ → List Pos
  | 0, _, _ => []
  | rem + 1, i, seg =>
    let ps := samplePoint x y cum mx my total n steps i seg
    ps.1 :: sampleLoopGo x y cum mx my total n steps rem (i + 1) ps.2

/-- The sampling loop of source lines 134–152 (`for i = 0..steps`,
starting with `seg = 0`). -/
def sampleLoop (x y cum : List ℚ) (mx my total : ℚ) (n steps : ℕ) :
    List Pos :=
  sampleLoopGo x y cum mx my total n steps (steps + 1) 0 0

/-- Source line 155: `out[out.length - 1] = c[n - 1]`. -/
def setLastTo (l : List Pos) (p : Pos) : List Pos := l.dropLast ++ [p]

/-- Source lines 95–163, `resampleUniformFast`.  The rational model makes
`isFinite(spacingMeters)` and `isFinite(total)` vacuously true and `!c`
impossible; `p[1] || 0` is `p.2` (JavaScript `||` only matters for
`NaN`/`undefined`, which have no rational counterpart). -/
def resampleUniformFast (ls : LineF) (spacingMeters : ℚ)
    (avgLatOverride : Option ℚ) : LineF :=
  let c := ls.coordinates
  if c.length < 2 ∨ spacingMeters ≤ 0 then ls
  else
    let avgLat := avgLatOf c avgLatOverride
    let mx := mpdLon avgLat
    let my := metersPerDegLat
    let x := c.map fun p => p.1 * mx
    let y := c.map fun p => p.2 * my
    let n := c.length
    let cum := cumList hyp (x.zip y)
    let total := cum.getLastD 0
    if total ≤ 0 then ls
    else
      let steps : ℕ := (max 1 (jsRound (total / spacingMeters))).toNat
      let out := sampleLoop x y cum mx my total n steps
      { coordinates := setLastTo out (c.getLastD (0, 0))
        properties := some (ls.properties.getD []) }

end Pipeline

section Stages

variable (mpdLon : ℚ → ℚ) (hyp : ℚ → ℚ → ℚ) (deflQ : ℚ → ℚ)

/-- Interior loop of `filletSharp` (source lines 33–54): called with the
predecessor `p0`, the current vertex `p1` and the remaining vertices;
`p1` is processed as an interior vertex exactly while at least one
vertex follows it.  Emits the points pushed onto `out`. -/
def filletBody (thr fr : ℚ) : Pos → Pos → List Pos → List Pos
  | p0, p1, p2 :: rest =>
    let v1 : ℚ × ℚ := (p1.1 - p0.1, p1.2 - p0.2)
    let v2 : ℚ × ℚ := (p2.1 - p1.1, p2.2 - p1.2)
    let n1 := hyp v1.1 v1.2
    let n2 := hyp v2.1 v2.2
    if n1 = 0 ∨ n2 = 0 then p1 :: filletBody thr fr p1 p2 rest
    else
      let dot := clamp ((v1.1 * v2.1 + v1.2 * v2.2) / (n1 * n2)) (-1) 1
      let deflectionDeg := deflQ dot
      if deflectionDeg ≥ thr then
        let t := clamp fr (1/20) (9/20)
        let q := lerp p1 p0 t
        let r := lerp p1 p2 t
        q :: r :: filletBody thr fr p1 p2 rest
      else p1 :: filletBody thr fr p1 p2 rest
  | _, _, [] => []

/-- Source lines 28–57, `filletSharp`.  When the corner loop runs, the
result is rebuilt with turf `lineString(out)` with NO properties
argument, so the output property map is the empty object `{}`
(modelled as `some []`). -/
def filletSharp (ls : LineF) (deflectionThresholdDeg filletFraction : ℚ) : LineF :=
  match ls.coordinates with
  | p0 :: p1 :: p2 :: rest =>
      { coordinates :=
          p0 :: filletBody hyp deflQ deflectionThresholdDeg filletFraction
                  p0 p1 (p2 :: rest)
             ++ [(p0 :: p1 :: p2 :: rest).getLastD p0]
        properties := some [] }
  | _ => ls

/-- Per-vertex action described by spec §4.5, used to characterise
`filletSharp`: keep a vertex adjacent to a zero-length segment, replace a
vertex whose computed deflection reaches the threshold by the two fillet
points `q = lerp(p1, p0, t)` and `r = lerp(p1, p2, t)` with
`t = clamp(filletFraction, 0.05, 0.45)`, otherwise keep it. -/
def filletStep (thr fr : ℚ) (tr : Pos × Pos × Pos) : List Pos :=
  let p0 := tr.1
  let p1 := tr.2.1
  let p2 := tr.2.2
  let v1 : ℚ × ℚ := (p1.1 - p0.1, p1.2 - p0.2)
  let v2 : ℚ × ℚ := (p2.1 - p1.1, p2.2 - p1.2)
  let n1 := hyp v1.1 v1.2
  let n2 := hyp v2.1 v2.2
  if n1 = 0 ∨ n2 = 0 then [p1]
  else if deflQ (clamp ((v1.1 * v2.1 + v1.2 * v2.2) / (n1 * n2)) (-1) 1) ≥ thr then
    [lerp p1 p0 (clamp fr (1/20) (9/20)), lerp p1 p2 (clamp fr (1/20) (9/20))]
  else [p1]

/-- Consecutive-vertex triples `(c[i-1], c[i], c[i+1])` of a list, one
per interior vertex. -/
def triples : List Pos → List (Pos × Pos × Pos)
  | a :: b :: c :: rest => (a, b, c) :: triples (b :: c :: rest)
  | _ => []

/-- Modelled from the spec (§4.2 PathCleaner; the code calls
`@turf/clean-coords`, which is not part of this repository): removes
consecutive exact-duplicate coordinates. -/
def dedupeConsec : List Pos → List Pos
  | [] => []
  | [a] => [a]
  | a :: b :: rest =>
      if a = b then dedupeConsec (b :: rest) else a :: dedupeConsec (b :: rest)

/-- Modelled from the spec: turf `cleanCoords` at feature level (source
line 203); properties pass through (spec §3). -/
def cleanCoords (ls : LineF) : LineF :=
  { coordinates := dedupeConsec ls.coordinates, properties := ls.properties }

/-- Models `@turf/helpers` `lineString`, which throws
"coordinates must be an array of two or more positions" when given fewer
than two positions. -/
def lineStringE (coords : List Pos) (props : Option PropMap) :
    Except String LineF :=
  if coords.length < 2 then
    .error "coordinates must be an array of two or more positions"
  else .ok { coordinates := coords, properties := props }

/-- Modelled from the spec (§4.4 Simplifier; the code calls
`@turf/simplify`, which is not part of this repository): the reduction
itself is abstracted as the parameter `simplifyF` (tolerance, then
coordinates); at feature level properties pass through, as the spec
requires of every stage. -/
def simplifyT (simplifyF : ℚ → List Pos → List Pos) (ls : LineF) (tol : ℚ) :
    LineF :=
  { coordinates := simplifyF tol ls.coordinates, properties := ls.properties }

/-- Recognised smoothing options (source lines 168–175); absent fields
take the defaults destructured at source lines 184–191. -/
structure SmoothOpts where
  simplifyToleranceMeters : Option ℚ
  deflectionThresholdDeg : Option ℚ
  filletFraction : Option ℚ
  densifySegments : Option ℚ
  spline : Option Bool
  resampleSpacingMeters : Option ℚ

/-- Empty options object `{}`. -/
def defaultOpts : SmoothOpts := ⟨none, none, none, none, none, none⟩

/-- Inner pushes of the densify loop (source lines 229–236): for each
adjacent pair push `a` and then `lerp(a, b, s / targetDensify)` for
integer `s` with `1 ≤ s < targetDensify`. -/
def densifyPairs : List Pos → ℚ → List Pos
  | a :: b :: rest, td =>
      (a :: (List.range (Int.ceil td - 1).toNat).map
          (fun k => lerp a b (((k + 1 : ℕ) : ℚ) / td)))
        ++ densifyPairs (b :: rest) td
  | _, _ => []

/-- The full `dense` array (source lines 227–237), including the final
`dense.push(c[c.length - 1])`. -/
def densifyPts (c : List Pos) (td : ℚ) : List Pos :=
  densifyPairs c td ++ [c.getLastD (0, 0)]

end Stages

section Orchestrator

variable (mpdLon : ℚ → ℚ) (hyp : ℚ → ℚ → ℚ) (deflQ : ℚ → ℚ)
variable (simplifyF : ℚ → List Pos → List Pos)
variable (splineF : LineF → Except String LineF)

/-- Source lines 179–247 of `smoothLineString`: everything before the
optional Bézier-spline stage (the value `out`/`ls` at line 247).
Failures of the turf `lineString` constructor propagate, as in the
source, which has no try/catch. -/
def preSplineLS (coords : List Pos) (props : PropMap) (opts : SmoothOpts) :
    Except String LineF := do
  let simplifyToleranceMeters := opts.simplifyToleranceMeters.getD 2
  let deflectionThresholdDeg := opts.deflectionThresholdDeg.getD 25
  let filletFraction := opts.filletFraction.getD (1/5)
  let densifySegments := opts.densifySegments.getD 3
  let resampleSpacingMeters := opts.resampleSpacingMeters
  let avgLat := (coords.foldl (fun s p => s + p.2) 0) /
      ((max 1 coords.length : ℕ) : ℚ)
  let tol := metersToDegreesAtLat mpdLon simplifyToleranceMeters avgLat
  let ls ← lineStringE coords (some props)
  let ls := cleanCoords ls
  let ls := resampleUniformFast mpdLon hyp ls 20 none
  let ls := simplifyT simplifyF ls tol
  let ls := resampleUniformFast mpdLon hyp ls 25 none
  let ls := filletSharp hyp deflQ ls deflectionThresholdDeg filletFraction
  let ls := filletSharp hyp deflQ ls deflectionThresholdDeg filletFraction
  let targetDensify :=
    match resampleSpacingMeters with
    | some s => if s = 0 then densifySegments else max 1 (min 2 densifySegments)
    | none => densifySegments
  let ls ← if targetDensify > 1 then
      lineStringE (densifyPts ls.coordinates targetDensify) (some props)
    else pure ls
  let ls :=
    match resampleSpacingMeters with
    | some s => if 0 < s then resampleUniformFast mpdLon hyp ls s none else ls
    | none => ls
  pure ls

/-- Source lines 179–264, `smoothLineString`: the pre-spline pipeline
followed by the optional spline stage (`splineF` abstracts
`@turf/bezier-spline`, an external library; spec §4.6), whose result has
the original properties explicitly reattached (source line 258). -/
def smoothLineString (coords : List Pos) (props : PropMap)
    (opts : SmoothOpts) : Except String LineF := do
  let ls ← preSplineLS mpdLon hyp deflQ simplifyF coords props opts
  if opts.spline.getD true then do
    let curvedBase ← splineF ls
    pure { curvedBase with properties := some props }
  else pure ls

/-- Source line 278: `const props = { ...(f.properties || {}) }`. -/
def spreadProps (p : Option PropMap) : PropMap := p.getD []

/-- The feature that `smoothLineString`'s return value denotes when
pushed into the output collection. -/
def toLineFeature (lf : LineF) : Feature :=
  { geometry := some (.lineString lf.coordinates), properties := lf.properties }

/-- The feature loop of `smoothGeoJSON` (source lines 276–295): skip
features without geometry, smooth `LineString` and `MultiLineString`
features, pass everything else through unchanged. -/
def smoothFeatures (opts : SmoothOpts) : List Feature →
    Except String (List Feature)
  | [] => .ok []
  | f :: rest =>
    match f.geometry with
    | none => smoothFeatures opts rest
    | some g =>
      let props := spreadProps f.properties
      match g with
      | .lineString cs => do
          let lf ← smoothLineString mpdLon hyp deflQ simplifyF splineF
                      cs props opts
          let out ← smoothFeatures opts rest
          pure (toLineFeature lf :: out)
      | .multiLineString parts => do
          let smoothedParts ← parts.mapM (fun part => do
              let lf ← smoothLineString mpdLon hyp deflQ simplifyF splineF
                          part props opts
              pure lf.coordinates)
          let out ← smoothFeatures opts rest
          pure ({ geometry := some (.multiLineString smoothedParts)
                  properties := some props } :: out)
      | .point _ => do
          let out ← smoothFeatures opts rest
          pure (f :: out)

/-- Source lines 269–298, `smoothGeoJSON`. -/
def smoothGeoJSON (input : GeoJSONIn) (opts : SmoothOpts) :
    Except String FeatureCollection := do
  let fc : FeatureCollection :=
    match input with
    | .featureCollection fc => fc
    | .feature f => { features := [f] }
  let outFeatures ← smoothFeatures mpdLon hyp deflQ simplifyF splineF
      opts fc.features
  pure { features := outFeatures }

/-- The smoothing memo of `useSmoothRoute` (hook source lines 42–52):
`try { return smoothGeoJSON(raw, options) } catch { setError("Smoothing
failed"); return null }`, returned as (smoothed data, error state). -/
def smoothedMemo (raw : GeoJSONIn) (opts : SmoothOpts) :
    Option FeatureCollection × Option String :=
  match smoothGeoJSON mpdLon hyp deflQ simplifyF splineF raw opts with
  | .ok fc => (some fc, none)
  | .error _ => (none, some "Smoothing failed")

end Orchestrator

/-- Whether an exceptional computation succeeded. -/
def isOkB : Except String LineF → Bool
  | .ok _ => true
  | .error _ => false

/-- Concrete instantiation of `mpdLon` for closed evaluations: all
concrete inputs below lie on the equator, where
`111320 * Math.cos(rad 0) = 111320` exactly (also in floating point). -/
def mpdLonFlat : ℚ → ℚ := fun _ => 111320

/-- Concrete instantiation of `deflQ` for closed evaluations: agrees
with the source's `(π - acos dot) * 180 / π` at `dot = 1` and
`dot = -1` (the only values reached in the evaluations below are
`dot = 1`, straight continuation, where both give `180`), and is
monotone in the dot product like the source expression. -/
def deflEx : ℚ → ℚ := fun d => 90 * (1 + d)

/-- Concrete instantiation of the external Simplifier for closed
evaluations.  On every concrete input below the resampling stage that
follows the simplifier depends only on the total length and the
endpoints, both of which Douglas-Peucker reduction preserves, so the
identity instantiation yields the same downstream values as the real
`@turf/simplify`. -/
def simplifyId : ℚ → List Pos → List Pos := fun _ l => l

/-- A spline-stage instantiation that succeeds (theorems about the
orchestrator hold for every `splineF`; this picks a concrete one for
closed witnesses). -/
def splineOk : LineF → Except String LineF := fun lf => .ok lf

/-- A spline-stage instantiation that fails, exhibiting an input on
which the spline stage fails (spec §4.6/§7 treat such failures as
expected behaviour of the external fitter). -/
def splineFail : LineF → Except String LineF := fun _ => .error "spline failed"

/-- The coordinate list produced by the main branch of
`resampleUniformFast` (projection, cumulative distances, sampling loop,
and the forced last coordinate), named so that theorems can speak about
the branch structure. -/
def resampleOut (mpdLon : ℚ → ℚ) (hyp : ℚ → ℚ → ℚ) (c : List Pos)
    (spacingMeters : ℚ) (avgLatOverride : Option ℚ) : List Pos :=
  let avgLat := avgLatOf c avgLatOverride
  let mx := mpdLon avgLat
  let my := metersPerDegLat
  let x := c.map fun p => p.1 * mx
  let y := c.map fun p => p.2 * my
  let cum := cumList hyp (x.zip y)
  let total := cum.getLastD 0
  let steps : ℕ := (max 1 (jsRound (total / spacingMeters))).toNat
  setLastTo (sampleLoop x y cum mx my total c.length steps) (c.getLastD (0, 0))

/-- Branch structure of `resampleUniformFast`: guards return the input
unchanged, otherwise the main branch runs (definitional). -/
lemma resampleUniformFast_eq (mpdLon : ℚ → ℚ) (hyp : ℚ → ℚ → ℚ) (ls : LineF)
    (spacingMeters : ℚ) (avgLatOverride : Option ℚ) :
    resampleUniformFast mpdLon hyp ls spacingMeters avgLatOverride =
      if ls.coordinates.length < 2 ∨ spacingMeters ≤ 0 then ls
      else if planarTotalAt mpdLon hyp ls.coordinates avgLatOverride ≤ 0 then ls
      else { coordinates :=
               resampleOut mpdLon hyp ls.coordinates spacingMeters avgLatOverride
             properties := some (ls.properties.getD []) } := rfl

/-- C1.  The claim says the top-level smoothing entry points never throw
for any well-formed GeoJSON input (the spec declares paths of length 0
and 1 valid, §3 and Scenario D) and that a single-point path is returned
unchanged.  The code disagrees: `smoothLineString` immediately rebuilds
the input with turf `lineString(coords, props)`, which throws on fewer
than two positions, and `smoothGeoJSON` propagates the exception.  This
theorem evaluates the embedded code at the failing input. -/
theorem C1_smoothGeoJSON_throws_on_single_point :
    smoothGeoJSON mpdLonFlat hypotQ deflEx simplifyId splineOk
      (.feature { geometry := some (.lineString [(0, 0)]), properties := none })
      defaultOpts
      = .error "coordinates must be an array of two or more positions" := rfl

/-- C9.  The claim says every smoothed line feature keeps its property
map verbatim.  The code disagrees off the default options: `filletSharp`
rebuilds the line via turf `lineString(out)` WITHOUT the properties
argument, and when the spline stage is disabled and the effective
densify factor is ≤ 1, no later stage reattaches them, so the output
property map is the empty object rather than the input's map.  This
theorem evaluates the embedded pipeline at such an input
(`spline: false`, `densifySegments: 1`, a 60 m straight segment whose
resampled form has interior vertices). -/
theorem C9_properties_dropped_eval :
    (smoothLineString mpdLonFlat hypotQ deflEx simplifyId splineOk
        [(0, 0), (60/111320, 0)] [("k", 1)]
        { simplifyToleranceMeters := none, deflectionThresholdDeg := none
          filletFraction := none, densifySegments := some 1
          spline := some false, resampleSpacingMeters := none }).map
      (fun lf => lf.properties) = .ok (some ([] : PropMap))
    ∧ some ([("k", 1)] : PropMap) ≠ some ([] : PropMap) := by
  exact ⟨by with_unfolding_all rfl, by decide⟩

/-- C3 counterexample.  The claim says the resampler returns exactly
`round(totalLength/spacing) + 1` points whenever the planar total length
is positive; but the code takes `steps = max(1, round(total/spacing))`,
so when `round(total/spacing) = 0` (total shorter than half the spacing)
the output has 2 points while the claimed formula gives 1.  Concrete
input: a 1 m equatorial segment resampled at 3 m spacing. -/
theorem C3_cardinality_counterexample :
    0 < planarTotalAt mpdLonFlat hypotQ [(0, 0), (1/111320, 0)] none
    ∧ (0 : ℚ) < 3
    ∧ (resampleUniformFast mpdLonFlat hypotQ
        { coordinates := [(0, 0), (1/111320, 0)], properties := none }
        3 none).coordinates.length = 2
    ∧ ¬ ((resampleUniformFast mpdLonFlat hypotQ
          { coordinates := [(0, 0), (1/111320, 0)], properties := none }
          3 none).coordinates.length
        = (jsRound (planarTotalAt mpdLonFlat hypotQ
            [(0, 0), (1/111320, 0)] none / 3)).toNat + 1) := by
  refine ⟨by with_unfolding_all decide, by norm_num, by with_unfolding_all rfl,
    by with_unfolding_all decide⟩

lemma sampleLoopGo_length (x y cum : List ℚ) (mx my total : ℚ) (n steps : ℕ) :
    ∀ rem i seg, (sampleLoopGo x y cum mx my total n steps rem i seg).length = rem := by
  intro rem
  induction rem with
  | zero => intro i seg; rfl
  | succ k ih => intro i seg; simp only [sampleLoopGo, List.length_cons, ih]

lemma setLastTo_length (l : List Pos) (p : Pos) (h : l ≠ []) :
    (setLastTo l p).length = l.length := by
  simp only [setLastTo, List.length_append, List.length_dropLast, List.length_singleton]
  have : 1 ≤ l.length := List.length_pos.mpr h
  omega

lemma setLastTo_getLast? (l : List Pos) (p : Pos) :
    (setLastTo l p).getLast? = some p := by
  simp only [setLastTo, List.getLast?_concat]

lemma setLastTo_head? (l : List Pos) (p : Pos) (h : 2 ≤ l.length) :
    (setLastTo l p).head? = l.head? := by
  match l, h with
  | a :: b :: rest, _ =>
    simp [setLastTo]

lemma getLast?_eq_getLastD (c : List Pos) (d : Pos) (h : c ≠ []) :
    c.getLast? = some (c.getLastD d) := by
  rw [List.getLastD_eq_getLast?]
  match c, h with
  | a :: rest, _ =>
    simp [List.getLast?_cons]

lemma steps_pos (j : ℤ) : 1 ≤ (max 1 j).toNat := by omega

lemma resampleOut_length (mpdLon : ℚ → ℚ) (hyp : ℚ → ℚ → ℚ) (c : List Pos)
    (spacing : ℚ) (avgO : Option ℚ) :
    (resampleOut mpdLon hyp c spacing avgO).length =
      (max 1 (jsRound (planarTotalAt mpdLon hyp c avgO / spacing))).toNat + 1 := by
  have hone := steps_pos (jsRound (planarTotalAt mpdLon hyp c avgO / spacing))
  simp only [resampleOut, planarTotalAt, sampleLoop] at *
  rw [setLastTo_length, sampleLoopGo_length]
  have := sampleLoopGo_length (c.map fun p => p.1 * mpdLon (avgLatOf c avgO))
    (c.map fun p => p.2 * metersPerDegLat)
    (cumList hyp (((c.map fun p => p.1 * mpdLon (avgLatOf c avgO))).zip
      (c.map fun p => p.2 * metersPerDegLat)))
    (mpdLon (avgLatOf c avgO)) metersPerDegLat
    ((cumList hyp (((c.map fun p => p.1 * mpdLon (avgLatOf c avgO))).zip
      (c.map fun p => p.2 * metersPerDegLat))).getLastD 0) c.length
  intro hnil
  have hlen := List.length_eq_zero.mpr hnil
  rw [sampleLoopGo_length] at hlen
  omega

/-- C8.  The resampler's guards: fewer than two points, non-positive
spacing, or non-positive planar total length all return the input
feature unchanged, exactly as the claim states (the non-finite spacing
and `!c` guards of the source are vacuous in the exact-rational model). -/
theorem C8_resample_noop_guards (mpdLon : ℚ → ℚ) (hyp : ℚ → ℚ → ℚ)
    (ls : LineF) (spacing : ℚ) (avgO : Option ℚ)
    (h : ls.coordinates.length < 2 ∨ spacing ≤ 0
        ∨ planarTotalAt mpdLon hyp ls.coordinates avgO ≤ 0) :
    resampleUniformFast mpdLon hyp ls spacing avgO = ls := by
  rw [resampleUniformFast_eq]
  by_cases h1 : ls.coordinates.length < 2 ∨ spacing ≤ 0
  · rw [if_pos h1]
  · rw [if_neg h1]
    have h2 : planarTotalAt mpdLon hyp ls.coordinates avgO ≤ 0 := by tauto
    rw [if_pos h2]

/-- C8 witness: a single-point line is returned untouched. -/
theorem C8_witness :
    resampleUniformFast mpdLonFlat hypotQ
        { coordinates := [(0, 0)], properties := none } 5 none
      = { coordinates := [(0, 0)], properties := none } :=
  C8_resample_noop_guards mpdLonFlat hypotQ
    { coordinates := [(0, 0)], properties := none } 5 none (Or.inl (by decide))

/-- C3 amended: with positive planar total length and positive spacing,
`resampleUniformFast` returns exactly `max(1, round(total/spacing)) + 1`
points; the claimed formula `round(total/spacing) + 1` holds whenever
`round(total/spacing) ≥ 1` but the code clamps `steps` below by 1. -/
theorem C3_cardinality_amended (mpdLon : ℚ → ℚ) (hyp : ℚ → ℚ → ℚ)
    (ls : LineF) (spacing : ℚ) (avgO : Option ℚ) (hs : 0 < spacing)
    (ht : 0 < planarTotalAt mpdLon hyp ls.coordinates avgO) :
    (resampleUniformFast mpdLon hyp ls spacing avgO).coordinates.length
      = (max 1 (jsRound
          (planarTotalAt mpdLon hyp ls.coordinates avgO / spacing))).toNat + 1 := by
  have hc2 : 2 ≤ ls.coordinates.length := by
    by_contra hlt
    have h0 : planarTotalAt mpdLon hyp ls.coordinates avgO = 0 := by
      match hc : ls.coordinates, hlt with
      | [], _ => rfl
      | [a], _ => rfl
      | a :: b :: rest, hlt => simp at hlt
    rw [h0] at ht
    exact lt_irrefl 0 ht
  rw [resampleUniformFast_eq]
  rw [if_neg (by push_neg; exact ⟨by omega, hs⟩), if_neg (not_le.mpr ht)]
  exact resampleOut_length mpdLon hyp ls.coordinates spacing avgO

/-- C3 witness for the amended cardinality law: the counterexample input
satisfies the amended formula (2 points from `max(1, round(1/3)) + 1`). -/
theorem C3_witness :
    (resampleUniformFast mpdLonFlat hypotQ
        { coordinates := [(0, 0), (1/111320, 0)], properties := none }
        3 none).coordinates.length
      = (max 1 (jsRound (planarTotalAt mpdLonFlat hypotQ
          [(0, 0), (1/111320, 0)] none / 3))).toNat + 1 :=
  C3_cardinality_amended mpdLonFlat hypotQ
    { coordinates := [(0, 0), (1/111320, 0)], properties := none } 3 none
    (by norm_num) (by with_unfolding_all decide)

lemma filletBody_eq (hyp : ℚ → ℚ → ℚ) (deflQ : ℚ → ℚ) (thr fr : ℚ) :
    ∀ (rest : List Pos) (p0 p1 : Pos),
      filletBody hyp deflQ thr fr p0 p1 rest
        = (triples (p0 :: p1 :: rest)).flatMap (filletStep hyp deflQ thr fr) := by
  intro rest
  induction rest with
  | nil => intro p0 p1; rfl
  | cons p2 rest2 ih =>
    intro p0 p1
    simp only [filletBody, triples, List.flatMap_cons]
    rw [ih p1 p2]
    simp only [filletStep]
    split_ifs <;> simp

lemma filletSharp_coords (hyp : ℚ → ℚ → ℚ) (deflQ : ℚ → ℚ)
    (props : Option PropMap) (thr fr : ℚ) (p0 p1 p2 : Pos) (rest : List Pos) :
    (filletSharp hyp deflQ
        { coordinates := p0 :: p1 :: p2 :: rest, properties := props }
        thr fr).coordinates
      = p0 :: ((triples (p0 :: p1 :: p2 :: rest)).flatMap
            (filletStep hyp deflQ thr fr)
          ++ [(p0 :: p1 :: p2 :: rest).getLastD p0]) := by
  show (p0 :: filletBody hyp deflQ thr fr p0 p1 (p2 :: rest)
      ++ [(p0 :: p1 :: p2 :: rest).getLastD p0]) = _
  rw [filletBody_eq]
  simp

lemma mem_triples (l : List Pos) :
    ∀ tr ∈ triples l, tr.1 ∈ l ∧ tr.2.1 ∈ l ∧ tr.2.2 ∈ l := by
  induction l with
  | nil => intro tr h; simp [triples] at h
  | cons a tail ih =>
    intro tr h
    cases tail with
    | nil => simp [triples] at h
    | cons b tail2 =>
      cases tail2 with
      | nil => simp [triples] at h
      | cons c rest =>
        simp only [triples, List.mem_cons] at h
        rcases h with rfl | h2
        · refine ⟨by simp, by simp, by simp⟩
        · obtain ⟨h1, h2', h3⟩ := ih tr h2
          exact ⟨List.mem_cons_of_mem a h1, List.mem_cons_of_mem a h2',
            List.mem_cons_of_mem a h3⟩

lemma filletStep_mem (hyp : ℚ → ℚ → ℚ) (deflQ : ℚ → ℚ) (thr fr : ℚ)
    (tr : Pos × Pos × Pos) (p : Pos) (h : p ∈ filletStep hyp deflQ thr fr tr) :
    p = tr.2.1 ∨ p = lerp tr.2.1 tr.1 (clamp fr (1/20) (9/20))
      ∨ p = lerp tr.2.1 tr.2.2 (clamp fr (1/20) (9/20)) := by
  simp only [filletStep] at h
  split_ifs at h
  · simp only [List.mem_singleton] at h
    exact Or.inl h
  · simp only [List.mem_cons, List.mem_singleton, List.not_mem_nil, or_false] at h
    rcases h with h | h
    · exact Or.inr (Or.inl h)
    · exact Or.inr (Or.inr h)
  · simp only [List.mem_singleton] at h
    exact Or.inl h

lemma getLastD_mem (c : List Pos) (d : Pos) (h : c ≠ []) : c.getLastD d ∈ c := by
  have h1 := getLast?_eq_getLastD c d h
  obtain ⟨h2, h3⟩ := List.mem_getLast?_eq_getLast (Option.mem_def.mpr h1)
  rw [h3]
  exact List.getLast_mem h2

lemma filletSharp_endpoints (hyp : ℚ → ℚ → ℚ) (deflQ : ℚ → ℚ) (ls : LineF)
    (thr fr : ℚ) :
    (filletSharp hyp deflQ ls thr fr).coordinates.head?
        = ls.coordinates.head?
    ∧ (filletSharp hyp deflQ ls thr fr).coordinates.getLast?
        = ls.coordinates.getLast? := by
  obtain ⟨c, props⟩ := ls
  match c with
  | [] => exact ⟨rfl, rfl⟩
  | [a] => exact ⟨rfl, rfl⟩
  | [a, b] => exact ⟨rfl, rfl⟩
  | a :: b :: d :: rest =>
    constructor
    · rfl
    · rw [show (filletSharp hyp deflQ
          { coordinates := a :: b :: d :: rest, properties := props }
          thr fr).coordinates
        = a :: (filletBody hyp deflQ thr fr a b (d :: rest)
            ++ [(a :: b :: d :: rest).getLastD a]) from by
          show (a :: filletBody hyp deflQ thr fr a b (d :: rest)
              ++ [(a :: b :: d :: rest).getLastD a]) = _
          simp]
      rw [show a :: (filletBody hyp deflQ thr fr a b (d :: rest)
            ++ [(a :: b :: d :: rest).getLastD a])
          = (a :: filletBody hyp deflQ thr fr a b (d :: rest))
            ++ [(a :: b :: d :: rest).getLastD a] from by simp]
      rw [List.getLast?_concat]
      exact (getLast?_eq_getLastD (a :: b :: d :: rest) a (by simp)).symm

/-- C5.  Per-vertex behaviour of the corner filleter: for a path with at
least three vertices, the output consists of the unchanged first vertex,
then for each interior vertex the result of `filletStep` (keep the
vertex when one of the adjacent segments has zero norm; when the
computed deflection reaches the threshold replace it by exactly the two
points `q = lerp(p1, p0, t)` and `r = lerp(p1, p2, t)` with
`t = clamp(filletFraction, 0.05, 0.45)`; otherwise keep it bit-identical),
then the unchanged last vertex; and the first/last coordinates are never
modified for any input.  Deflection here is the quantity the code
computes at source lines 43–44 (abstracted as `deflQ` applied to the
clamped normalised dot product), which is also the formula the spec's
§4.5 states. -/
theorem C5_fillet_characterization :
    (∀ (hyp : ℚ → ℚ → ℚ) (deflQ : ℚ → ℚ) (props : Option PropMap)
        (thr fr : ℚ) (p0 p1 p2 : Pos) (rest : List Pos),
      (filletSharp hyp deflQ
          { coordinates := p0 :: p1 :: p2 :: rest, properties := props }
          thr fr).coordinates
        = p0 :: ((triples (p0 :: p1 :: p2 :: rest)).flatMap
              (filletStep hyp deflQ thr fr)
            ++ [(p0 :: p1 :: p2 :: rest).getLastD p0]))
    ∧ (∀ (hyp : ℚ → ℚ → ℚ) (deflQ : ℚ → ℚ) (ls : LineF) (thr fr : ℚ),
        (filletSharp hyp deflQ ls thr fr).coordinates.head?
            = ls.coordinates.head?
        ∧ (filletSharp hyp deflQ ls thr fr).coordinates.getLast?
            = ls.coordinates.getLast?) := by
  constructor
  · intro hyp deflQ props thr fr p0 p1 p2 rest
    exact filletSharp_coords hyp deflQ props thr fr p0 p1 p2 rest
  · intro hyp deflQ ls thr fr
    exact filletSharp_endpoints hyp deflQ ls thr fr

/-- C6.  Fillet safety: the cosine handed to the arccos is clamped into
[-1, 1]; a vertex adjacent to a zero-norm segment is kept unchanged (the
guard of source line 40 fires before any division by the norms), a
vertex whose computed deflection is below the threshold is kept
bit-identical, and every coordinate the filleter ever outputs is either
an input coordinate or a `lerp` of two input coordinates with the
clamped fillet fraction — in particular always a well-defined finite
value, never NaN/undefined. -/
theorem C6_fillet_safety :
    (∀ x : ℚ, -1 ≤ clamp x (-1) 1 ∧ clamp x (-1) 1 ≤ 1)
    ∧ (∀ (hyp : ℚ → ℚ → ℚ) (deflQ : ℚ → ℚ) (thr fr : ℚ) (p0 p1 p2 : Pos),
        (hyp (p1.1 - p0.1) (p1.2 - p0.2) = 0
            ∨ hyp (p2.1 - p1.1) (p2.2 - p1.2) = 0 →
          filletStep hyp deflQ thr fr (p0, p1, p2) = [p1])
        ∧ (¬ deflQ (clamp
              (((p1.1 - p0.1) * (p2.1 - p1.1) + (p1.2 - p0.2) * (p2.2 - p1.2))
                / (hyp (p1.1 - p0.1) (p1.2 - p0.2)
                    * hyp (p2.1 - p1.1) (p2.2 - p1.2))) (-1) 1) ≥ thr →
            filletStep hyp deflQ thr fr (p0, p1, p2) = [p1]))
    ∧ (∀ (hyp : ℚ → ℚ → ℚ) (deflQ : ℚ → ℚ) (ls : LineF) (thr fr : ℚ)
        (p : Pos), p ∈ (filletSharp hyp deflQ ls thr fr).coordinates →
        p ∈ ls.coordinates
          ∨ ∃ a b, a ∈ ls.coordinates ∧ b ∈ ls.coordinates
              ∧ p = lerp a b (clamp fr (1/20) (9/20))) := by
  refine ⟨?_, ?_, ?_⟩
  · intro x
    constructor
    · exact le_max_left _ _
    · exact max_le (by norm_num) (min_le_left _ _)
  · intro hyp deflQ thr fr p0 p1 p2
    constructor
    · intro h
      simp only [filletStep]
      rw [if_pos h]
    · intro h
      simp only [filletStep]
      split_ifs with h1
      · rfl
      · rfl
  · intro hyp deflQ ls thr fr p hp
    obtain ⟨c, props⟩ := ls
    match c with
    | [] => exact Or.inl hp
    | [a] => exact Or.inl hp
    | [a, b] => exact Or.inl hp
    | a :: b :: d :: rest =>
      rw [filletSharp_coords] at hp
      simp only [List.mem_cons, List.mem_append, List.mem_singleton,
        List.not_mem_nil, or_false] at hp
      rcases hp with rfl | hp | rfl
      · exact Or.inl (by simp)
      · rw [List.mem_flatMap] at hp
        obtain ⟨tr, htr, hstep⟩ := hp
        obtain ⟨m0, m1, m2⟩ := mem_triples _ tr htr
        rcases filletStep_mem _ _ _ _ _ _ hstep with rfl | rfl | rfl
        · exact Or.inl m1
        · exact Or.inr ⟨tr.2.1, tr.1, m1, m0, rfl⟩
        · exact Or.inr ⟨tr.2.1, tr.2.2, m1, m2, rfl⟩
      · exact Or.inl (getLastD_mem _ _ (by simp))

/-- A concrete three-vertex corner used by the fillet witnesses. -/
def lsCorner : LineF :=
  { coordinates := [(0, 0), (1, 0), (1, 1)], properties := none }

/-- C6 witness: instantiating the safety theorem at a concrete corner
(the right angle at (1,0) of [(0,0),(1,0),(1,1)] with the concrete
deflection surrogate) discharges each hypothesis. -/
theorem C6_witness :
    ((-1 : ℚ) ≤ clamp 7 (-1) 1 ∧ clamp 7 (-1) 1 ≤ 1)
    ∧ (((4/5, 0) : Pos) ∈ lsCorner.coordinates
        ∨ ∃ a b, a ∈ lsCorner.coordinates ∧ b ∈ lsCorner.coordinates
            ∧ ((4/5, 0) : Pos) = lerp a b (clamp (1/5) (1/20) (9/20))) := by
  constructor
  · exact C6_fillet_safety.1 7
  · refine C6_fillet_safety.2.2 hypotQ deflEx lsCorner 25 (1/5) (4/5, 0) ?_
    with_unfolding_all decide

lemma ok_bind {α β : Type} (a : α) (f : α → Except String β) :
    ((Except.ok a : Except String α) >>= f) = f a := rfl

lemma error_bind {α β : Type} (e : String) (f : α → Except String β) :
    ((Except.error e : Except String α) >>= f) = Except.error e := rfl

section FeatureLemmas

variable (mpdLon : ℚ → ℚ) (hyp : ℚ → ℚ → ℚ) (deflQ : ℚ → ℚ)
variable (simplifyF : ℚ → List Pos → List Pos)
variable (splineF : LineF → Except String LineF)

lemma smoothFeatures_skip_none (opts : SmoothOpts) :
    ∀ fs : List Feature,
      smoothFeatures mpdLon hyp deflQ simplifyF splineF opts fs
        = smoothFeatures mpdLon hyp deflQ simplifyF splineF opts
            (fs.filter (fun f => f.geometry.isSome)) := by
  intro fs
  induction fs with
  | nil => rfl
  | cons f rest ih =>
    cases hg : f.geometry with
    | none =>
      rw [show (f :: rest).filter (fun f => f.geometry.isSome)
          = rest.filter (fun f => f.geometry.isSome) from by
        simp [List.filter_cons, hg]]
      rw [← ih]
      simp only [smoothFeatures, hg]
    | some g =>
      rw [show (f :: rest).filter (fun f => f.geometry.isSome)
          = f :: rest.filter (fun f => f.geometry.isSome) from by
        simp [List.filter_cons, hg]]
      simp only [smoothFeatures, hg]
      cases g with
      | lineString cs => rw [ih]
      | multiLineString parts => rw [ih]
      | point p => rw [ih]

lemma smoothFeatures_out_geom (opts : SmoothOpts) :
    ∀ (fs out : List Feature),
      smoothFeatures mpdLon hyp deflQ simplifyF splineF opts fs = .ok out →
      ∀ g ∈ out, g.geometry.isSome := by
  intro fs
  induction fs with
  | nil =>
    intro out h g hg
    simp only [smoothFeatures, Except.ok.injEq] at h
    subst h
    simp at hg
  | cons f rest ih =>
    intro out h g hg
    cases hgm : f.geometry with
    | none =>
      simp only [smoothFeatures, hgm] at h
      exact ih out h g hg
    | some geo =>
      cases geo with
      | lineString cs =>
        simp only [smoothFeatures, hgm] at h
        cases hsl : smoothLineString mpdLon hyp deflQ simplifyF splineF cs
            (spreadProps f.properties) opts with
        | error e => rw [hsl, error_bind] at h; exact absurd h (by simp)
        | ok lf =>
          rw [hsl, ok_bind] at h
          cases hrest : smoothFeatures mpdLon hyp deflQ simplifyF splineF
              opts rest with
          | error e => rw [hrest, error_bind] at h; exact absurd h (by simp)
          | ok out2 =>
            rw [hrest, ok_bind] at h
            simp only [pure, Except.pure, Except.ok.injEq] at h
            subst h
            rcases List.mem_cons.mp hg with rfl | hmem
            · simp [toLineFeature]
            · exact ih out2 hrest g hmem
      | multiLineString parts =>
        simp only [smoothFeatures, hgm] at h
        cases hmp : parts.mapM (fun part => do
            let lf ← smoothLineString mpdLon hyp deflQ simplifyF splineF
                part (spreadProps f.properties) opts
            pure lf.coordinates) with
        | error e => rw [hmp, error_bind] at h; exact absurd h (by simp)
        | ok pcs =>
          rw [hmp, ok_bind] at h
          cases hrest : smoothFeatures mpdLon hyp deflQ simplifyF splineF
              opts rest with
          | error e => rw [hrest, error_bind] at h; exact absurd h (by simp)
          | ok out2 =>
            rw [hrest, ok_bind] at h
            simp only [pure, Except.pure, Except.ok.injEq] at h
            subst h
            rcases List.mem_cons.mp hg with rfl | hmem
            · simp
            · exact ih out2 hrest g hmem
      | point p =>
        simp only [smoothFeatures, hgm] at h
        cases hrest : smoothFeatures mpdLon hyp deflQ simplifyF splineF
            opts rest with
        | error e => rw [hrest, error_bind] at h; exact absurd h (by simp)
        | ok out2 =>
          rw [hrest, ok_bind] at h
          simp only [pure, Except.pure, Except.ok.injEq] at h
          subst h
          rcases List.mem_cons.mp hg with rfl | hmem
          · simp [hgm]
          · exact ih out2 hrest g hmem

end FeatureLemmas

/-- C10.  Features whose geometry is null/undefined are silently
omitted: the feature loop is the same as the loop over only the
features that do have a geometry, and no such feature can occur in the
output (every output feature carries a geometry). -/
theorem C10_null_geometry_omitted :
    (∀ (mpdLon : ℚ → ℚ) (hyp : ℚ → ℚ → ℚ) (deflQ : ℚ → ℚ)
        (simplifyF : ℚ → List Pos → List Pos)
        (splineF : LineF → Except String LineF) (opts : SmoothOpts)
        (fs : List Feature),
      smoothFeatures mpdLon hyp deflQ simplifyF splineF opts fs
        = smoothFeatures mpdLon hyp deflQ simplifyF splineF opts
            (fs.filter (fun f => f.geometry.isSome)))
    ∧ (∀ (mpdLon : ℚ → ℚ) (hyp : ℚ → ℚ → ℚ) (deflQ : ℚ → ℚ)
        (simplifyF : ℚ → List Pos → List Pos)
        (splineF : LineF → Except String LineF) (opts : SmoothOpts)
        (fs out : List Feature) (f : Feature),
        smoothFeatures mpdLon hyp deflQ simplifyF splineF opts fs = .ok out →
        f ∈ fs → f.geometry = none → f ∉ out) := by
  constructor
  · intro mpdLon hyp deflQ simplifyF splineF opts fs
    exact smoothFeatures_skip_none mpdLon hyp deflQ simplifyF splineF opts fs
  · intro mpdLon hyp deflQ simplifyF splineF opts fs out f h _ hnone hmem
    have hg := smoothFeatures_out_geom mpdLon hyp deflQ simplifyF splineF
      opts fs out h f hmem
    rw [hnone] at hg
    simp at hg

/-- C10 witness: a geometry-less feature is dropped (the loop over the
one-feature list returns the empty collection and the feature is not in
it). -/
theorem C10_witness :
    ({ geometry := none, properties := some [("a", 1)] } : Feature)
      ∉ ([] : List Feature) :=
  C10_null_geometry_omitted.2 mpdLonFlat hypotQ deflEx simplifyId splineOk
    defaultOpts [{ geometry := none, properties := some [("a", 1)] }] []
    { geometry := none, properties := some [("a", 1)] }
    rfl (by simp) rfl

lemma smoothFeatures_sound (mpdLon : ℚ → ℚ) (hyp : ℚ → ℚ → ℚ) (deflQ : ℚ → ℚ)
    (simplifyF : ℚ → List Pos → List Pos)
    (splineF : LineF → Except String LineF) (opts : SmoothOpts) :
    ∀ (fs out : List Feature),
      smoothFeatures mpdLon hyp deflQ simplifyF splineF opts fs = .ok out →
      ∀ f ∈ fs,
      (∀ p, f.geometry = some (.point p) → f ∈ out)
      ∧ (∀ cs, f.geometry = some (.lineString cs) →
          ∃ lf, smoothLineString mpdLon hyp deflQ simplifyF splineF cs
              (spreadProps f.properties) opts = .ok lf
            ∧ toLineFeature lf ∈ out)
      ∧ (∀ parts, f.geometry = some (.multiLineString parts) →
          ∃ pcs, parts.mapM (fun part => do
              let lf ← smoothLineString mpdLon hyp deflQ simplifyF splineF
                  part (spreadProps f.properties) opts
              pure lf.coordinates) = .ok pcs
            ∧ ({ geometry := some (.multiLineString pcs)
                 properties := some (spreadProps f.properties) } : Feature)
                ∈ out) := by
  intro fs
  induction fs with
  | nil => intro out _ f hf; simp at hf
  | cons g rest ih =>
    intro out h f hf
    cases hgm : g.geometry with
    | none =>
      simp only [smoothFeatures, hgm] at h
      rcases List.mem_cons.mp hf with rfl | hfr
      · exact ⟨fun p hp => absurd hp (by simp [hgm]),
          fun cs hp => absurd hp (by simp [hgm]),
          fun parts hp => absurd hp (by simp [hgm])⟩
      · exact ih out h f hfr
    | some geo =>
      cases geo with
      | lineString cs =>
        simp only [smoothFeatures, hgm] at h
        cases hsl : smoothLineString mpdLon hyp deflQ simplifyF splineF cs
            (spreadProps g.properties) opts with
        | error e => rw [hsl, error_bind] at h; exact absurd h (by simp)
        | ok lf =>
          rw [hsl, ok_bind] at h
          cases hrest : smoothFeatures mpdLon hyp deflQ simplifyF splineF
              opts rest with
          | error e => rw [hrest, error_bind] at h; exact absurd h (by simp)
          | ok out2 =>
            rw [hrest, ok_bind] at h
            simp only [pure, Except.pure, Except.ok.injEq] at h
            subst h
            rcases List.mem_cons.mp hf with rfl | hfr
            · refine ⟨fun p hp => absurd hp (by simp [hgm]),
                fun cs2 hp => ?_,
                fun parts hp => absurd hp (by simp [hgm])⟩
              rw [hgm] at hp
              injection hp with hp2
              injection hp2 with hp3
              subst hp3
              exact ⟨lf, hsl, by simp⟩
            · obtain ⟨c1, c2, c3⟩ := ih out2 hrest f hfr
              exact ⟨fun p hp => List.mem_cons_of_mem _ (c1 p hp),
                fun cs2 hp => by
                  obtain ⟨lf2, hlf2, hm⟩ := c2 cs2 hp
                  exact ⟨lf2, hlf2, List.mem_cons_of_mem _ hm⟩,
                fun parts hp => by
                  obtain ⟨pcs, hpcs, hm⟩ := c3 parts hp
                  exact ⟨pcs, hpcs, List.mem_cons_of_mem _ hm⟩⟩
      | multiLineString parts =>
        simp only [smoothFeatures, hgm] at h
        cases hmp : parts.mapM (fun part => do
            let lf ← smoothLineString mpdLon hyp deflQ simplifyF splineF
                part (spreadProps g.properties) opts
            pure lf.coordinates) with
        | error e => rw [hmp, error_bind] at h; exact absurd h (by simp)
        | ok pcs =>
          rw [hmp, ok_bind] at h
          cases hrest : smoothFeatures mpdLon hyp deflQ simplifyF splineF
              opts rest with
          | error e => rw [hrest, error_bind] at h; exact absurd h (by simp)
          | ok out2 =>
            rw [hrest, ok_bind] at h
            simp only [pure, Except.pure, Except.ok.injEq] at h
            subst h
            rcases List.mem_cons.mp hf with rfl | hfr
            · refine ⟨fun p hp => absurd hp (by simp [hgm]),
                fun cs2 hp => absurd hp (by simp [hgm]),
                fun parts2 hp => ?_⟩
              rw [hgm] at hp
              injection hp with hp2
              injection hp2 with hp3
              subst hp3
              exact ⟨pcs, hmp, by simp⟩
            · obtain ⟨c1, c2, c3⟩ := ih out2 hrest f hfr
              exact ⟨fun p hp => List.mem_cons_of_mem _ (c1 p hp),
                fun cs2 hp => by
                  obtain ⟨lf2, hlf2, hm⟩ := c2 cs2 hp
                  exact ⟨lf2, hlf2, List.mem_cons_of_mem _ hm⟩,
                fun parts2 hp => by
                  obtain ⟨pcs2, hpcs2, hm⟩ := c3 parts2 hp
                  exact ⟨pcs2, hpcs2, List.mem_cons_of_mem _ hm⟩⟩
      | point p0 =>
        simp only [smoothFeatures, hgm] at h
        cases hrest : smoothFeatures mpdLon hyp deflQ simplifyF splineF
            opts rest with
        | error e => rw [hrest, error_bind] at h; exact absurd h (by simp)
        | ok out2 =>
          rw [hrest, ok_bind] at h
          simp only [pure, Except.pure, Except.ok.injEq] at h
          subst h
          rcases List.mem_cons.mp hf with rfl | hfr
          · exact ⟨fun p hp => by simp,
              fun cs hp => absurd hp (by simp [hgm]),
              fun parts hp => absurd hp (by simp [hgm])⟩
          · obtain ⟨c1, c2, c3⟩ := ih out2 hrest f hfr
            exact ⟨fun p hp => List.mem_cons_of_mem _ (c1 p hp),
              fun cs hp => by
                obtain ⟨lf2, hlf2, hm⟩ := c2 cs hp
                exact ⟨lf2, hlf2, List.mem_cons_of_mem _ hm⟩,
              fun parts hp => by
                obtain ⟨pcs2, hpcs2, hm⟩ := c3 parts hp
                exact ⟨pcs2, hpcs2, List.mem_cons_of_mem _ hm⟩⟩

/-- C7.  For a FeatureCollection input on which `smoothGeoJSON`
succeeds: every feature with a non-line geometry is in the output
unchanged (the same value, byte-for-byte in the embedding), every
`LineString` feature contributes exactly `smoothLineString` of its own
coordinates and properties, and every `MultiLineString` feature
contributes its parts smoothed independently, each by its own
`smoothLineString` call. -/
theorem C7_passthrough_and_independent_smoothing (mpdLon : ℚ → ℚ)
    (hyp : ℚ → ℚ → ℚ) (deflQ : ℚ → ℚ) (simplifyF : ℚ → List Pos → List Pos)
    (splineF : LineF → Except String LineF) (opts : SmoothOpts)
    (fc out : FeatureCollection)
    (h : smoothGeoJSON mpdLon hyp deflQ simplifyF splineF
        (.featureCollection fc) opts = .ok out) :
    ∀ f ∈ fc.features,
      (∀ p, f.geometry = some (.point p) → f ∈ out.features)
      ∧ (∀ cs, f.geometry = some (.lineString cs) →
          ∃ lf, smoothLineString mpdLon hyp deflQ simplifyF splineF cs
              (spreadProps f.properties) opts = .ok lf
            ∧ toLineFeature lf ∈ out.features)
      ∧ (∀ parts, f.geometry = some (.multiLineString parts) →
          ∃ pcs, parts.mapM (fun part => do
              let lf ← smoothLineString mpdLon hyp deflQ simplifyF splineF
                  part (spreadProps f.properties) opts
              pure lf.coordinates) = .ok pcs
            ∧ ({ geometry := some (.multiLineString pcs)
                 properties := some (spreadProps f.properties) } : Feature)
                ∈ out.features) := by
  have hsf : smoothFeatures mpdLon hyp deflQ simplifyF splineF opts
      fc.features = .ok out.features := by
    simp only [smoothGeoJSON] at h
    cases hsf : smoothFeatures mpdLon hyp deflQ simplifyF splineF opts
        fc.features with
    | error e => rw [hsf, error_bind] at h; exact absurd h (by simp)
    | ok fs2 =>
      rw [hsf, ok_bind] at h
      simp only [pure, Except.pure, Except.ok.injEq] at h
      rw [← h]
  exact smoothFeatures_sound mpdLon hyp deflQ simplifyF splineF opts
    fc.features out.features hsf

/-- A point feature used by the C7 witness. -/
def pointFeat : Feature :=
  { geometry := some (.point (5, 6)), properties := some [("p", 2)] }

/-- A line feature used by the C7 witness (a 1 m equatorial segment). -/
def lineFeat : Feature :=
  { geometry := some (.lineString [(0, 0), (1/111320, 0)]), properties := none }

/-- The collection `smoothGeoJSON` produces from `[pointFeat, lineFeat]`
with the concrete instantiations and default options. -/
def outFCLit : FeatureCollection :=
  { features := [pointFeat,
      { geometry := some (.lineString
          [(0, 0), (1/333960, 0), (1/166980, 0), (1/111320, 0)])
        properties := some [] }] }

/-- C7 witness: on a collection of one Point and one LineString, the
point passes through unchanged and the line is smoothed by its own
`smoothLineString` call. -/
theorem C7_witness :
    pointFeat ∈ outFCLit.features
    ∧ (∃ lf, smoothLineString mpdLonFlat hypotQ deflEx simplifyId splineOk
          [(0, 0), (1/111320, 0)] (spreadProps lineFeat.properties)
          defaultOpts = .ok lf
        ∧ toLineFeature lf ∈ outFCLit.features) := by
  have h := C7_passthrough_and_independent_smoothing mpdLonFlat hypotQ deflEx
    simplifyId splineOk defaultOpts { features := [pointFeat, lineFeat] }
    outFCLit (by with_unfolding_all rfl)
  constructor
  · exact (h pointFeat (by simp)).1 (5, 6) rfl
  · exact (h lineFeat (by simp)).2.1 [(0, 0), (1/111320, 0)] rfl

/-- C2 counterexample.  The claim says that on any input where the
spline stage fails, the orchestrator catches the failure and returns the
pre-spline path.  At this concrete input the spline stage fails while
the pre-spline result exists, yet `smoothLineString` returns the error
itself (there is no try/catch in the orchestrator), not the pre-spline
path. -/
theorem C2_spline_failure_not_caught :
    smoothLineString mpdLonFlat hypotQ deflEx simplifyId splineFail
        [(0, 0), (1/111320, 0)] [("k", 1)] defaultOpts
      = .error "spline failed"
    ∧ isOkB (preSplineLS mpdLonFlat hypotQ deflEx simplifyId
        [(0, 0), (1/111320, 0)] [("k", 1)] defaultOpts) = true := by
  exact ⟨by with_unfolding_all rfl, by with_unfolding_all rfl⟩

/-- C2 amended: a spline-stage failure propagates out of
`smoothLineString` (and hence out of `smoothGeoJSON`) uncaught; it is
the `useSmoothRoute` hook one level up that catches it, reports the
smoothing-failed condition ("Smoothing failed") to the caller, and
returns null — not the pre-spline path — as the smoothed data. -/
theorem C2_spline_error_propagates_and_memo_reports :
    (∀ (mpdLon : ℚ → ℚ) (hyp : ℚ → ℚ → ℚ) (deflQ : ℚ → ℚ)
        (simplifyF : ℚ → List Pos → List Pos)
        (splineF : LineF → Except String LineF) (coords : List Pos)
        (props : PropMap) (opts : SmoothOpts) (lf : LineF) (e : String),
      preSplineLS mpdLon hyp deflQ simplifyF coords props opts = .ok lf →
      opts.spline.getD true = true →
      splineF lf = .error e →
      smoothLineString mpdLon hyp deflQ simplifyF splineF coords props opts
        = .error e)
    ∧ (∀ (mpdLon : ℚ → ℚ) (hyp : ℚ → ℚ → ℚ) (deflQ : ℚ → ℚ)
        (simplifyF : ℚ → List Pos → List Pos)
        (splineF : LineF → Except String LineF) (raw : GeoJSONIn)
        (opts : SmoothOpts) (e : String),
      smoothGeoJSON mpdLon hyp deflQ simplifyF splineF raw opts = .error e →
      smoothedMemo mpdLon hyp deflQ simplifyF splineF raw opts
        = (none, some "Smoothing failed")) := by
  constructor
  · intro mpdLon hyp deflQ simplifyF splineF coords props opts lf e h1 h2 h3
    simp only [smoothLineString]
    rw [h1, ok_bind, h2]
    simp only [if_true]
    rw [h3, error_bind]
  · intro mpdLon hyp deflQ simplifyF splineF raw opts e h
    simp only [smoothedMemo, h]

/-- The pre-spline result of the C2 counterexample input. -/
def preLF2 : LineF :=
  { coordinates := [(0, 0), (1/333960, 0), (1/166980, 0), (1/111320, 0)]
    properties := some [("k", 1)] }

/-- C2 witness: the amended theorem applied at the concrete failing
spline and input (error propagates; the hook memo reports
"Smoothing failed" with null data). -/
theorem C2_witness :
    smoothLineString mpdLonFlat hypotQ deflEx simplifyId splineFail
        [(0, 0), (1/111320, 0)] [("k", 1)] defaultOpts
      = .error "spline failed"
    ∧ smoothedMemo mpdLonFlat hypotQ deflEx simplifyId splineFail
        (.feature { geometry := some (.lineString [(0, 0), (1/111320, 0)])
                    properties := some [("k", 1)] }) defaultOpts
      = (none, some "Smoothing failed") := by
  constructor
  · exact C2_spline_error_propagates_and_memo_reports.1 mpdLonFlat hypotQ
      deflEx simplifyId splineFail [(0, 0), (1/111320, 0)] [("k", 1)]
      defaultOpts preLF2 "spline failed" (by with_unfolding_all rfl) rfl rfl
  · exact C2_spline_error_propagates_and_memo_reports.2 mpdLonFlat hypotQ
      deflEx simplifyId splineFail
      (.feature { geometry := some (.lineString [(0, 0), (1/111320, 0)])
                  properties := some [("k", 1)] }) defaultOpts "spline failed"
      (by with_unfolding_all rfl)

lemma getD_nonneg : ∀ (l : List ℚ) (k : ℕ), (∀ q ∈ l, 0 ≤ q) → 0 ≤ l.getD k 0 := by
  intro l
  induction l with
  | nil => intro k _; simp
  | cons a rest ih =>
    intro k h
    cases k with
    | zero => simpa using h a (by simp)
    | succ k2 =>
      rw [List.getD_cons_succ]
      exact ih k2 (fun q hq => h q (by simp [hq]))

lemma cumAux_nonneg (hyp : ℚ → ℚ → ℚ) (h0 : ∀ a b, 0 ≤ hyp a b) :
    ∀ (pm : List Pos) (prev : ℚ), 0 ≤ prev → ∀ q ∈ cumAux hyp prev pm, 0 ≤ q := by
  intro pm
  induction pm with
  | nil => intro prev _ q hq; simp [cumAux] at hq
  | cons a rest ih =>
    intro prev hprev q hq
    cases rest with
    | nil => simp [cumAux] at hq
    | cons b rest2 =>
      simp only [cumAux, List.mem_cons] at hq
      have hnxt : 0 ≤ prev + hyp (b.1 - a.1) (b.2 - a.2) :=
        add_nonneg hprev (h0 _ _)
      rcases hq with rfl | hq2
      · exact hnxt
      · exact ih (prev + hyp (b.1 - a.1) (b.2 - a.2)) hnxt q hq2

lemma cumList_getD_nonneg (hyp : ℚ → ℚ → ℚ) (h0 : ∀ a b, 0 ≤ hyp a b)
    (pm : List Pos) (k : ℕ) : 0 ≤ (cumList hyp pm).getD k 0 := by
  refine getD_nonneg _ _ ?_
  intro q hq
  simp only [cumList, List.mem_cons] at hq
  rcases hq with rfl | hq2
  · exact le_refl 0
  · exact cumAux_nonneg hyp h0 pm 0 (le_refl 0) q hq2

lemma advanceSegGo_stop (cum : List ℚ) (n : ℕ) (d : ℚ) (seg : ℕ)
    (h : ¬ (seg < n - 2 ∧ cum.getD (seg + 1) 0 < d)) :
    ∀ fuel, advanceSegGo cum n d fuel seg = seg := by
  intro fuel
  cases fuel with
  | zero => rfl
  | succ k => simp only [advanceSegGo, if_neg h]

lemma samplePoint_zero (x y : List ℚ) (hyp : ℚ → ℚ → ℚ)
    (h0 : ∀ a b, 0 ≤ hyp a b) (pm : List Pos) (mx my total : ℚ)
    (n steps : ℕ) :
    (samplePoint x y (cumList hyp pm) mx my total n steps 0 0).1
      = (x.getD 0 0 / mx, y.getD 0 0 / my) := by
  simp only [samplePoint]
  have hd : total * ((0 : ℕ) : ℚ) / (steps : ℚ) = 0 := by
    simp
  rw [hd]
  have hstop : advanceSeg (cumList hyp pm) n 0 0 = 0 := by
    refine advanceSegGo_stop (cumList hyp pm) n 0 0 ?_ n
    rintro ⟨-, hlt⟩
    exact absurd hlt (not_lt.mpr (cumList_getD_nonneg hyp h0 pm 1))
  rw [hstop]
  have hc0 : (cumList hyp pm).getD 0 0 = 0 := rfl
  rw [hc0]
  have ht0 : (if (cumList hyp pm).getD 1 0 - 0 > 0
      then ((0 : ℚ) - 0) / ((cumList hyp pm).getD 1 0 - 0) else 0) = 0 := by
    split <;> simp
  rw [ht0]
  rw [if_pos (by norm_num : (0 : ℚ) < 1 / 1000000000)]
  simp

lemma resampleOut_head? (mpdLon : ℚ → ℚ) (hyp : ℚ → ℚ → ℚ)
    (h0 : ∀ a b, 0 ≤ hyp a b) (c : List Pos) (spacing : ℚ)
    (avgO : Option ℚ) (hc : c ≠ [])
    (hmx : mpdLon (avgLatOf c avgO) ≠ 0) :
    (resampleOut mpdLon hyp c spacing avgO).head? = c.head? := by
  match c, hc with
  | p :: rest, _ =>
    simp only [resampleOut, sampleLoop]
    rw [show ((max 1 (jsRound ((cumList hyp
        (((p :: rest).map fun q => q.1 * mpdLon (avgLatOf (p :: rest) avgO)).zip
          ((p :: rest).map fun q => q.2 * metersPerDegLat))).getLastD 0
        / spacing))).toNat + 1) = ((max 1 (jsRound ((cumList hyp
        (((p :: rest).map fun q => q.1 * mpdLon (avgLatOf (p :: rest) avgO)).zip
          ((p :: rest).map fun q => q.2 * metersPerDegLat))).getLastD 0
        / spacing))).toNat) + 1 from rfl]
    rw [setLastTo_head?]
    · simp only [sampleLoopGo]
      rw [samplePoint_zero _ _ hyp h0]
      simp only [List.map_cons, List.getD_cons_zero, List.head?_cons]
      rw [mul_div_cancel_right₀ _ hmx,
        mul_div_cancel_right₀ _ (by norm_num [metersPerDegLat] : metersPerDegLat ≠ 0)]
    · rw [List.length_cons, sampleLoopGo_length]
      have := steps_pos (jsRound ((cumList hyp
        (((p :: rest).map fun q => q.1 * mpdLon (avgLatOf (p :: rest) avgO)).zip
          ((p :: rest).map fun q => q.2 * metersPerDegLat))).getLastD 0 / spacing))
      omega

lemma resampleOut_getLast? (mpdLon : ℚ → ℚ) (hyp : ℚ → ℚ → ℚ)
    (c : List Pos) (spacing : ℚ) (avgO : Option ℚ) (hc : c ≠ []) :
    (resampleOut mpdLon hyp c spacing avgO).getLast? = c.getLast? := by
  simp only [resampleOut]
  rw [setLastTo_getLast?]
  exact (getLast?_eq_getLastD c (0, 0) hc).symm

lemma resample_endpoints (mpdLon : ℚ → ℚ) (hyp : ℚ → ℚ → ℚ)
    (h0 : ∀ a b, 0 ≤ hyp a b) (ls : LineF) (spacing : ℚ) (avgO : Option ℚ)
    (hmx : mpdLon (avgLatOf ls.coordinates avgO) ≠ 0)
    (hc : ls.coordinates ≠ []) :
    (resampleUniformFast mpdLon hyp ls spacing avgO).coordinates.head?
        = ls.coordinates.head?
    ∧ (resampleUniformFast mpdLon hyp ls spacing avgO).coordinates.getLast?
        = ls.coordinates.getLast? := by
  rw [resampleUniformFast_eq]
  split_ifs with h1 h2
  · exact ⟨rfl, rfl⟩
  · exact ⟨rfl, rfl⟩
  · exact ⟨resampleOut_head? mpdLon hyp h0 ls.coordinates spacing avgO hc hmx,
      resampleOut_getLast? mpdLon hyp ls.coordinates spacing avgO hc⟩

lemma resample_length_ge_two (mpdLon : ℚ → ℚ) (hyp : ℚ → ℚ → ℚ)
    (ls : LineF) (spacing : ℚ) (avgO : Option ℚ)
    (hl : 2 ≤ ls.coordinates.length) :
    2 ≤ (resampleUniformFast mpdLon hyp ls spacing avgO).coordinates.length := by
  rw [resampleUniformFast_eq]
  split_ifs with h1 h2
  · exact hl
  · exact hl
  · rw [resampleOut_length]
    have := steps_pos (jsRound
      (planarTotalAt mpdLon hyp ls.coordinates avgO / spacing))
    omega

lemma dedupeConsec_head? : ∀ c : List Pos, (dedupeConsec c).head? = c.head? := by
  intro c
  induction c with
  | nil => rfl
  | cons a rest ih =>
    cases rest with
    | nil => rfl
    | cons b rest2 =>
      simp only [dedupeConsec]
      split_ifs with hab
      · subst hab; rw [ih]; simp
      · rfl

lemma getLast?_cons_ne (a : Pos) (l : List Pos) (h : l ≠ []) :
    (a :: l).getLast? = l.getLast? := by
  match l, h with
  | b :: rest, _ => rw [List.getLast?_cons_cons]

lemma dedupeConsec_ne_nil : ∀ c : List Pos, c ≠ [] → dedupeConsec c ≠ [] := by
  intro c
  induction c with
  | nil => intro h; exact absurd rfl h
  | cons a rest ih =>
    intro _
    cases rest with
    | nil => simp [dedupeConsec]
    | cons b rest2 =>
      simp only [dedupeConsec]
      split_ifs with hab
      · exact ih (by simp)
      · simp

lemma dedupeConsec_getLast? : ∀ c : List Pos,
    (dedupeConsec c).getLast? = c.getLast? := by
  intro c
  induction c with
  | nil => rfl
  | cons a rest ih =>
    cases rest with
    | nil => rfl
    | cons b rest2 =>
      simp only [dedupeConsec]
      split_ifs with hab
      · rw [ih, List.getLast?_cons_cons]
      · rw [getLast?_cons_ne a _ (dedupeConsec_ne_nil (b :: rest2) (by simp)), ih,
          List.getLast?_cons_cons]

lemma dedupeConsec_mem : ∀ (c : List Pos) (x : Pos),
    x ∈ dedupeConsec c ↔ x ∈ c := by
  intro c
  induction c with
  | nil => intro x; rfl
  | cons a rest ih =>
    intro x
    cases rest with
    | nil => rfl
    | cons b rest2 =>
      simp only [dedupeConsec]
      split_ifs with hab
      · rw [ih]
        subst hab
        simp [List.mem_cons]
      · simp only [List.mem_cons, ih]

lemma two_distinct_length (l : List Pos) (a b : Pos) (ha : a ∈ l) (hb : b ∈ l)
    (hne : a ≠ b) : 2 ≤ l.length := by
  match l with
  | [] => simp at ha
  | [x] =>
    simp only [List.mem_singleton] at ha hb
    exact absurd (ha.trans hb.symm) hne
  | x :: y :: rest => simp

lemma filletSharp_length_ge_two (hyp : ℚ → ℚ → ℚ) (deflQ : ℚ → ℚ) (ls : LineF)
    (thr fr : ℚ) (hl : 2 ≤ ls.coordinates.length) :
    2 ≤ (filletSharp hyp deflQ ls thr fr).coordinates.length := by
  obtain ⟨c, props⟩ := ls
  match c, hl with
  | [a, b], _ =>
    show 2 ≤ (({ coordinates := [a, b], properties := props } : LineF)).coordinates.length
    simp
  | a :: b :: d :: rest, _ =>
    show 2 ≤ (a :: (filletBody hyp deflQ thr fr a b (d :: rest)
        ++ [(a :: b :: d :: rest).getLastD a])).length
    simp

lemma densifyPts_head? (c : List Pos) (td : ℚ) (hl : 2 ≤ c.length) :
    (densifyPts c td).head? = c.head? := by
  match c, hl with
  | a :: b :: rest, _ =>
    simp [densifyPts, densifyPairs]

lemma densifyPts_getLast? (c : List Pos) (td : ℚ) (hc : c ≠ []) :
    (densifyPts c td).getLast? = c.getLast? := by
  simp only [densifyPts]
  rw [List.getLast?_concat]
  exact (getLast?_eq_getLastD c (0, 0) hc).symm

lemma densifyPts_length_ge_two (c : List Pos) (td : ℚ) (hl : 2 ≤ c.length) :
    2 ≤ (densifyPts c td).length := by
  match c, hl with
  | a :: b :: rest, _ =>
    simp only [densifyPts, densifyPairs, List.length_append, List.length_cons]
    omega

lemma pure_bindE {α β : Type} (a : α) (f : α → Except String β) :
    ((pure a : Except String α) >>= f) = f a := rfl

lemma ne_nil_of_two_le (l : List Pos) (h : 2 ≤ l.length) : l ≠ [] := by
  intro hn
  rw [hn] at h
  simp at h

lemma hypotQ_nonneg (a b : ℚ) : 0 ≤ hypotQ a b := by
  unfold hypotQ ratSqrt
  exact div_nonneg (by positivity) (by positivity)

/-- C4.  Endpoint preservation: the resampler's first output point
equals the input's first point (exact in the rational model of the
projection round-trip) and its last output point is forced to the
input's last coordinate; and the whole pre-spline pipeline, on any path
with two distinct points, succeeds and preserves both endpoints exactly.
(`hyp` ranges over nonnegative distance functions, true of `Math.hypot`;
`mpdLon` over nowhere-zero meter scales, true of `111320·cos` of any
latitude the float code produces; `simplifyF` over simplifiers that
retain endpoints and at least two points, guaranteed by spec §4.4 for
the external Douglas-Peucker stage.) -/
theorem C4_endpoint_preservation :
    (∀ (mpdLon : ℚ → ℚ) (hyp : ℚ → ℚ → ℚ), (∀ a b, 0 ≤ hyp a b) →
      ∀ (ls : LineF) (spacing : ℚ) (avgO : Option ℚ),
        mpdLon (avgLatOf ls.coordinates avgO) ≠ 0 → ls.coordinates ≠ [] →
        (resampleUniformFast mpdLon hyp ls spacing avgO).coordinates.head?
            = ls.coordinates.head?
        ∧ (resampleUniformFast mpdLon hyp ls spacing avgO).coordinates.getLast?
            = ls.coordinates.getLast?)
    ∧ (∀ (mpdLon : ℚ → ℚ) (hyp : ℚ → ℚ → ℚ) (deflQ : ℚ → ℚ)
        (simplifyF : ℚ → List Pos → List Pos), (∀ a b, 0 ≤ hyp a b) →
        (∀ l, mpdLon l ≠ 0) →
        (∀ tol l, (simplifyF tol l).head? = l.head?
          ∧ (simplifyF tol l).getLast? = l.getLast?
          ∧ (2 ≤ l.length → 2 ≤ (simplifyF tol l).length)) →
        ∀ (coords : List Pos) (props : PropMap) (opts : SmoothOpts),
        (∃ a, a ∈ coords ∧ ∃ b, b ∈ coords ∧ a ≠ b) →
        ∃ lf, preSplineLS mpdLon hyp deflQ simplifyF coords props opts = .ok lf
          ∧ lf.coordinates.head? = coords.head?
          ∧ lf.coordinates.getLast? = coords.getLast?) := by
  constructor
  · intro mpdLon hyp h0 ls spacing avgO hmx hc
    exact resample_endpoints mpdLon hyp h0 ls spacing avgO hmx hc
  · intro mpdLon hyp deflQ simplifyF h0 hmx hsimp coords props opts hdist
    obtain ⟨a, ha, b, hb, hab⟩ := hdist
    have hlen : 2 ≤ coords.length := two_distinct_length coords a b ha hb hab
    have hcore : ∀ tol thr fr : ℚ,
        (filletSharp hyp deflQ (filletSharp hyp deflQ (resampleUniformFast
            mpdLon hyp (simplifyT simplifyF (resampleUniformFast mpdLon hyp
              (cleanCoords { coordinates := coords, properties := some props })
              20 none) tol) 25 none) thr fr) thr fr).coordinates.head?
            = coords.head?
        ∧ (filletSharp hyp deflQ (filletSharp hyp deflQ (resampleUniformFast
            mpdLon hyp (simplifyT simplifyF (resampleUniformFast mpdLon hyp
              (cleanCoords { coordinates := coords, properties := some props })
              20 none) tol) 25 none) thr fr) thr fr).coordinates.getLast?
            = coords.getLast?
        ∧ 2 ≤ (filletSharp hyp deflQ (filletSharp hyp deflQ (resampleUniformFast
            mpdLon hyp (simplifyT simplifyF (resampleUniformFast mpdLon hyp
              (cleanCoords { coordinates := coords, properties := some props })
              20 none) tol) 25 none) thr fr) thr fr).coordinates.length := by
      intro tol thr fr
      set Lc : LineF :=
        cleanCoords { coordinates := coords, properties := some props } with hLc
      have hcc : Lc.coordinates = dedupeConsec coords := rfl
      have hch : Lc.coordinates.head? = coords.head? := by
        rw [hcc]; exact dedupeConsec_head? coords
      have hcl : Lc.coordinates.getLast? = coords.getLast? := by
        rw [hcc]; exact dedupeConsec_getLast? coords
      have hclen : 2 ≤ Lc.coordinates.length := by
        rw [hcc]
        exact two_distinct_length _ a b ((dedupeConsec_mem coords a).mpr ha)
          ((dedupeConsec_mem coords b).mpr hb) hab
      set Lr1 : LineF := resampleUniformFast mpdLon hyp Lc 20 none with hLr1
      obtain ⟨h1h, h1l⟩ := resample_endpoints mpdLon hyp h0 Lc 20 none (hmx _)
        (ne_nil_of_two_le _ hclen)
      have h1len := resample_length_ge_two mpdLon hyp Lc 20 none hclen
      set Ls : LineF := simplifyT simplifyF Lr1 tol with hLs
      obtain ⟨hsh, hsl, hslen⟩ := hsimp tol Lr1.coordinates
      have hsc : Ls.coordinates = simplifyF tol Lr1.coordinates := rfl
      set Lr2 : LineF := resampleUniformFast mpdLon hyp Ls 25 none with hLr2
      obtain ⟨h2h, h2l⟩ := resample_endpoints mpdLon hyp h0 Ls 25 none (hmx _)
        (by rw [hsc]; exact ne_nil_of_two_le _ (hslen h1len))
      have h2len := resample_length_ge_two mpdLon hyp Ls 25 none
        (by rw [hsc]; exact hslen h1len)
      set Lf1 : LineF := filletSharp hyp deflQ Lr2 thr fr with hLf1
      obtain ⟨hf1h, hf1l⟩ := filletSharp_endpoints hyp deflQ Lr2 thr fr
      have hf1len := filletSharp_length_ge_two hyp deflQ Lr2 thr fr h2len
      obtain ⟨hf2h, hf2l⟩ := filletSharp_endpoints hyp deflQ Lf1 thr fr
      have hf2len := filletSharp_length_ge_two hyp deflQ Lf1 thr fr hf1len
      refine ⟨?_, ?_, hf2len⟩
      · rw [hf2h, hf1h, h2h, hsc, hsh, h1h, hch]
      · rw [hf2l, hf1l, h2l, hsc, hsl, h1l, hcl]
    have hlsE : lineStringE coords (some props)
        = .ok { coordinates := coords, properties := some props } := by
      simp only [lineStringE]
      rw [if_neg (by omega)]
    simp only [preSplineLS]
    rw [hlsE]
    simp only [ok_bind]
    obtain ⟨hch, hcl, hclen⟩ := hcore
      (metersToDegreesAtLat mpdLon (opts.simplifyToleranceMeters.getD 2)
        ((coords.foldl (fun s p => s + p.2) 0)
          / ((max 1 coords.length : ℕ) : ℚ)))
      (opts.deflectionThresholdDeg.getD 25) (opts.filletFraction.getD (1/5))
    set G : LineF := filletSharp hyp deflQ (filletSharp hyp deflQ
        (resampleUniformFast mpdLon hyp (simplifyT simplifyF
          (resampleUniformFast mpdLon hyp (cleanCoords
            { coordinates := coords, properties := some props }) 20 none)
          (metersToDegreesAtLat mpdLon (opts.simplifyToleranceMeters.getD 2)
            ((coords.foldl (fun s p => s + p.2) 0)
              / ((max 1 coords.length : ℕ) : ℚ)))) 25 none)
        (opts.deflectionThresholdDeg.getD 25) (opts.filletFraction.getD (1/5)))
        (opts.deflectionThresholdDeg.getD 25) (opts.filletFraction.getD (1/5))
      with hG
    have hdok : ∀ td : ℚ, lineStringE (densifyPts G.coordinates td) (some props)
        = .ok { coordinates := densifyPts G.coordinates td
                properties := some props } := by
      intro td
      have := densifyPts_length_ge_two G.coordinates td hclen
      simp only [lineStringE]
      rw [if_neg (by omega)]
    cases hsp : opts.resampleSpacingMeters with
    | none =>
      simp only [hsp]
      split_ifs with htd
      · rw [hdok]
        simp only [ok_bind]
        refine ⟨_, rfl, ?_, ?_⟩
        · show (densifyPts G.coordinates (opts.densifySegments.getD 3)).head?
              = coords.head?
          rw [densifyPts_head? _ _ hclen, hch]
        · show (densifyPts G.coordinates
              (opts.densifySegments.getD 3)).getLast? = coords.getLast?
          rw [densifyPts_getLast? _ _ (ne_nil_of_two_le _ hclen), hcl]
      · simp only [pure_bindE]
        exact ⟨G, rfl, hch, hcl⟩
    | some s =>
      simp only [hsp]
      by_cases hs0 : s = 0
      · subst hs0
        simp only [if_pos rfl, show ¬ (0 : ℚ) < 0 from by norm_num, if_false,
          if_neg (lt_irrefl (0 : ℚ))]
        split_ifs with htd
        · rw [hdok]
          simp only [ok_bind]
          refine ⟨_, rfl, ?_, ?_⟩
          · show (densifyPts G.coordinates (opts.densifySegments.getD 3)).head?
                = coords.head?
            rw [densifyPts_head? _ _ hclen, hch]
          · show (densifyPts G.coordinates
                (opts.densifySegments.getD 3)).getLast? = coords.getLast?
            rw [densifyPts_getLast? _ _ (ne_nil_of_two_le _ hclen), hcl]
        · simp only [pure_bindE]
          exact ⟨G, rfl, hch, hcl⟩
        · exact absurd trivial htd
        · exact absurd trivial htd
      · simp only [if_neg hs0]
        by_cases hspos : 0 < s
        · simp only [if_pos hspos]
          split_ifs with htd
          · rw [hdok]
            simp only [ok_bind]
            have hdlen := densifyPts_length_ge_two G.coordinates
              (max 1 (min 2 (opts.densifySegments.getD 3))) hclen
            obtain ⟨hrh, hrl⟩ := resample_endpoints mpdLon hyp h0
              { coordinates := densifyPts G.coordinates
                  (max 1 (min 2 (opts.densifySegments.getD 3)))
                properties := some props } s none (hmx _)
              (ne_nil_of_two_le _ hdlen)
            refine ⟨_, rfl, ?_, ?_⟩
            · rw [hrh]
              show (densifyPts G.coordinates
                  (max 1 (min 2 (opts.densifySegments.getD 3)))).head?
                  = coords.head?
              rw [densifyPts_head? _ _ hclen, hch]
            · rw [hrl]
              show (densifyPts G.coordinates
                  (max 1 (min 2 (opts.densifySegments.getD 3)))).getLast?
                  = coords.getLast?
              rw [densifyPts_getLast? _ _ (ne_nil_of_two_le _ hclen), hcl]
          · simp only [pure_bindE]
            obtain ⟨hrh, hrl⟩ := resample_endpoints mpdLon hyp h0 G s none
              (hmx _) (ne_nil_of_two_le _ hclen)
            exact ⟨_, rfl, hrh.trans hch, hrl.trans hcl⟩
        · simp only [if_neg hspos]
          split_ifs with htd
          · rw [hdok]
            simp only [ok_bind]
            refine ⟨_, rfl, ?_, ?_⟩
            · show (densifyPts G.coordinates
                  (max 1 (min 2 (opts.densifySegments.getD 3)))).head?
                  = coords.head?
              rw [densifyPts_head? _ _ hclen, hch]
            · show (densifyPts G.coordinates
                  (max 1 (min 2 (opts.densifySegments.getD 3)))).getLast?
                  = coords.getLast?
              rw [densifyPts_getLast? _ _ (ne_nil_of_two_le _ hclen), hcl]
          · simp only [pure_bindE]
            exact ⟨G, rfl, hch, hcl⟩

/-- A two-point equatorial line used by the C4 witness. -/
def lsW : LineF :=
  { coordinates := [(0, 0), (1/111320, 0)], properties := none }

/-- C4 witness: both parts of the endpoint-preservation theorem applied
at a concrete equatorial segment, discharging every hypothesis. -/
theorem C4_witness :
    ((resampleUniformFast mpdLonFlat hypotQ lsW 3 none).coordinates.head?
        = lsW.coordinates.head?
      ∧ (resampleUniformFast mpdLonFlat hypotQ lsW 3 none).coordinates.getLast?
        = lsW.coordinates.getLast?)
    ∧ (∃ lf, preSplineLS mpdLonFlat hypotQ deflEx simplifyId
          [(0, 0), (1/111320, 0)] [] defaultOpts = .ok lf
        ∧ lf.coordinates.head? = ([(0, 0), (1/111320, 0)] : List Pos).head?
        ∧ lf.coordinates.getLast?
            = ([(0, 0), (1/111320, 0)] : List Pos).getLast?) := by
  constructor
  · exact C4_endpoint_preservation.1 mpdLonFlat hypotQ hypotQ_nonneg lsW 3 none
      (by norm_num [mpdLonFlat]) (by simp [lsW])
  · exact C4_endpoint_preservation.2 mpdLonFlat hypotQ deflEx simplifyId
      hypotQ_nonneg (fun l => by norm_num [mpdLonFlat])
      (fun tol l => ⟨rfl, rfl, fun h => h⟩) [(0, 0), (1/111320, 0)] []
      defaultOpts
      ⟨(0, 0), by simp, (1/111320, 0), by simp, by with_unfolding_all decide⟩

end SR
